import Mathlib

/-!
# Verification of the github-metrics data pipeline

Shallow embedding of the repository's core pipeline (`src/client.py`,
`src/metrics.py`, `src/models.py`) together with theorems settling the
specification claims about it.

Conventions of the embedding:
* JSON values (GraphQL responses) are modelled by the inductive `Json`;
  Python dict lookups (`d.get(k)` / `k in d`) become `Option`-valued field
  lookups, and Python truthiness becomes `Json.truthy`.
* Python dictionaries built and updated by the client are modelled by
  `PyDict`, an association list with Python's insertion-order/replace
  semantics (`PyDict.insert` replaces in place, appends new keys at the end).
* An uncaught Python exception is modelled by `Except.error ()`; a value
  returned normally by `Except.ok`.
* Python's arbitrary-precision ints become `Int`/`Nat`; `statistics.median`,
  which returns an int or a float, is modelled exactly over `ℚ`.
* Network I/O is abstracted by a function from request data to the response
  `Json`; `time.sleep` calls are counted, not performed.
-/

set_option maxRecDepth 10000

deriving instance DecidableEq for Except

namespace GithubMetrics

/-! ## JSON values -/

/-- JSON values as delivered by the GraphQL endpoint (`response.json()`).
Objects keep their fields as an ordered association list. -/
inductive Json where
  | null : Json
  | bool : Bool → Json
  | num : Int → Json
  | str : String → Json
  | arr : List Json → Json
  | obj : List (String × Json) → Json

/-- First-match field lookup on an object's field list (Python `dict` has
unique keys, so first-match agrees with dict lookup). -/
def getField : List (String × Json) → String → Option Json
  | [], _ => none
  | (k2, v) :: rest, k => if k2 = k then some v else getField rest k

/-- `d.get(k)` on an object; `none` when the key is absent or the value is
not a dict (in the source such a lookup would raise, which callers model
explicitly). -/
def Json.get (j : Json) (k : String) : Option Json :=
  match j with
  | .obj fs => getField fs k
  | _ => none

/-- Python truthiness of a JSON value: `None`, `False`, `0`, `""`, `[]` and
`{}` are falsy, everything else truthy. -/
def Json.truthy : Json → Bool
  | .null => false
  | .bool b => b
  | .num n => n != 0
  | .str s => s != ""
  | .arr xs => !xs.isEmpty
  | .obj fs => !fs.isEmpty

/-- Whether the value is JSON `null` (Python `None`). -/
def Json.isNull : Json → Bool
  | .null => true
  | _ => false

/-- Read an integer out of a JSON value (GraphQL `Int` fields). -/
def Json.asInt? : Json → Option Int
  | .num n => some n
  | _ => none

/-- Read a string out of a JSON value. -/
def Json.asStr? : Json → Option String
  | .str s => some s
  | _ => none

/-! ## Record types (`src/models.py`) -/

/-- `models.PullRequest`. Fields that the client can populate with Python
`None` (`number`, `createdAt`, `mergedAt` via `dict.get`) are `Option`s;
`additions`/`deletions` always receive the `dict.get` default `0` when
missing, and `state` the default `"unknown"`. -/
structure PullRequest where
  number : Option Int
  additions : Int
  deletions : Int
  created_at : Option String
  merged_at : Option String := none
  state : String := "open"
  reviews_given : Int := 0
deriving DecidableEq

/-- `models.ContributionMetrics` (the stored fields; `multiplied_changes`
is a `@property`, i.e. derived on read, modelled as a function below). -/
structure ContributionMetrics where
  total_prs : Nat
  median_changes : ℚ
  total_additions : Int
  total_deletions : Int
  reviews_given : Int := 0
deriving DecidableEq

/-- `ContributionMetrics.multiplied_changes` — the `@property` computing the
impact score `median_changes * total_prs` on every read. -/
def ContributionMetrics.multiplied_changes (m : ContributionMetrics) : ℚ :=
  m.median_changes * (m.total_prs : ℚ)

/-- `ContributionMetrics.empty()` — the all-zero metrics record. -/
def ContributionMetrics.empty : ContributionMetrics :=
  { total_prs := 0
    median_changes := 0
    total_additions := 0
    total_deletions := 0
    reviews_given := 0 }

/-! ## `statistics.median` and the aggregator (`src/metrics.py`) -/

/-- Sorting step of `statistics.median` (`data = sorted(data)`). -/
def sortInt (l : List Int) : List Int :=
  List.insertionSort (· ≤ ·) l

/-- `statistics.median` on integer data, exactly over `ℚ`: the middle
element of the sorted data for odd length, the mean of the two middle
elements for even length.  (The CPython version raises on empty data; the
aggregator below never reaches that case, and the model returns `0`,
matching the spec's "median of the empty set is 0" convention.) -/
def median (data : List Int) : ℚ :=
  let s := sortInt data
  let n := s.length
  if n % 2 = 1 then ((s.getD (n / 2) 0 : Int) : ℚ)
  else ((s.getD (n / 2 - 1) 0 + s.getD (n / 2) 0 : Int) : ℚ) / 2

/-- `GitHubMetrics._calculate_metrics` (`src/metrics.py` lines 37-55). -/
def _calculate_metrics (prs : List PullRequest) : ContributionMetrics :=
  if prs = [] then ContributionMetrics.empty
  else
    { total_prs := prs.length
      median_changes := median (prs.map (fun pr => pr.additions + pr.deletions))
      total_additions := (prs.map PullRequest.additions).sum
      total_deletions := (prs.map PullRequest.deletions).sum
      reviews_given := ((prs.head?).map PullRequest.reviews_given).getD 0 }

/-! ## Python dictionaries -/

/-- A Python `dict` with string keys: an association list in insertion
order, with unique keys maintained by `PyDict.insert`. -/
abbrev PyDict (α : Type) := List (String × α)

/-- `d[k] = v`: replace the value in place when the key exists, otherwise
append the new entry at the end (Python insertion-order semantics). -/
def PyDict.insert {α : Type} : PyDict α → String → α → PyDict α
  | [], k, v => [(k, v)]
  | (k2, v2) :: rest, k, v =>
      if k2 = k then (k2, v) :: rest else (k2, v2) :: PyDict.insert rest k v

/-- `d.get(k)` / `d[k]` lookup. -/
def PyDict.lookup {α : Type} : PyDict α → String → Option α
  | [], _ => none
  | (k2, v) :: rest, k => if k2 = k then some v else PyDict.lookup rest k

/-- `list(d.keys())`. -/
def PyDict.keys {α : Type} (d : PyDict α) : List String :=
  d.map Prod.fst

/-- `d.update(other)`: insert every entry of `other` into `d` in order. -/
def PyDict.update {α : Type} (d other : PyDict α) : PyDict α :=
  other.foldl (fun acc p => acc.insert p.1 p.2) d

/-! ## Batch response demultiplexing (`src/client.py`, `_process_user_batch`) -/

/-- One node of the `reviews_j` alias: `node and node.get('author')`
(`client.py` lines 149-152).  `ok true` when the node is counted, `ok
false` when skipped; a truthy node that is not a dict has no `.get` and
the resulting `AttributeError` is uncaught there, aborting the batch
(`error`). -/
def reviewNodeOk (node : Json) : Except Unit Bool :=
  if !node.truthy then .ok false
  else
    match node with
    | .obj fs => .ok (((getField fs "author").getD .null).truthy)
    | _ => .error ()

/-- `len([node for node in nodes if node and node.get('author')])`. -/
def countReviewNodes : List Json → Except Unit Nat
  | [] => .ok 0
  | n :: rest => do
      let b ← reviewNodeOk n
      let c ← countReviewNodes rest
      pure (if b then c + 1 else c)

/-- The `reviews_given` computation (`client.py` lines 147-152):
`if reviews_data and 'nodes' in reviews_data: reviews_given = len([...])`,
else it stays `0`.  A truthy non-dict `reviews_data`, or a truthy
non-iterable `nodes` value, raises uncaught (modelled `error`); falsy
iterables (`""`, `{}`) yield an empty iteration hence count `0`. -/
def reviewsGivenOf (reviews_data : Option Json) : Except Unit Nat :=
  match reviews_data with
  | none => .ok 0
  | some (.obj fs) =>
      if (Json.obj fs).truthy then
        match getField fs "nodes" with
        | none => .ok 0
        | some (.arr xs) => countReviewNodes xs
        | some (.str "") => .ok 0
        | some (.obj []) => .ok 0
        | some _ => .error ()
      else .ok 0
  | some j => if j.truthy then .error () else .ok 0

/-- One node of the `user_j` alias inside the `try` block (`client.py`
lines 155-171): falsy nodes are skipped by `if not node: continue`; a
truthy non-dict node raises inside the `try` and is skipped with a logged
warning; a dict node always yields a `PullRequest` — `dict.get` supplies
`None` for missing `number`/`createdAt`/`mergedAt` and the defaults `0` /
`'unknown'` for `additions`/`deletions`/`state`, and the plain dataclass
constructor performs no validation, so it cannot fail on a dict node.
(GraphQL guarantees `number`/`additions`/`deletions` are integers and
`createdAt`/`mergedAt`/`state` strings when present; other value shapes
are collapsed to the same defaults here.) -/
def userPRNode (rg : Int) (node : Json) : Option PullRequest :=
  if !node.truthy then none
  else
    match node with
    | .obj fs => some
        { number := ((getField fs "number").getD .null).asInt?
          additions := (((getField fs "additions").getD (.num 0)).asInt?).getD 0
          deletions := (((getField fs "deletions").getD (.num 0)).asInt?).getD 0
          created_at := ((getField fs "createdAt").getD .null).asStr?
          merged_at := ((getField fs "mergedAt").getD .null).asStr?
          state := (((getField fs "state").getD (.str "unknown")).asStr?).getD "unknown"
          reviews_given := rg }
    | _ => none

/-- The `reviews_j` alias lookup for batch index `j`. -/
def aliasReviewsGiven (dfs : List (String × Json)) (j : Nat) : Except Unit Nat :=
  reviewsGivenOf (getField dfs ("reviews_" ++ toString j))

/-- The count the spec describes: review nodes that are non-null and
carry a non-null `author`. -/
def specReviewCount (nodes : List Json) : Nat :=
  nodes.countP
    (fun node => !node.isNull && !((node.get "author").getD Json.null).isNull)

/-- The shapes a `reviews_j` node can take in an actual GraphQL response
to `nodes { ... on PullRequest { number author { login } } }`: JSON null,
or an object whose `author` field — when present — is null or a non-empty
object.  (GraphQL cannot deliver a falsy-but-non-null node or author.) -/
def reviewNodeWF : Json → Bool
  | .null => true
  | .obj fs =>
      (match getField fs "author" with
       | none => true
       | some .null => true
       | some (.obj afs) => !afs.isEmpty
       | some _ => false)
  | _ => false

/-- Loop body of `_process_user_batch` for batch index `j` (`client.py`
lines 139-173): `ok none` models `continue` (the username keeps its
initial `[]`), `ok (some prs)` models `results[username] = prs`, `error`
an uncaught exception aborting the batch.  The order of effects follows
the source: the `user_j`/`'nodes'` membership check, then the reviews
count, then the PR-node loop.  A truthy non-dict `user_data`, or a
non-iterable `nodes` value, raises uncaught; iterating a string or a dict
yields only non-dict elements, all skipped inside the `try`. -/
def processUserAlias (dfs : List (String × Json)) (j : Nat) :
    Except Unit (Option (List PullRequest)) :=
  match getField dfs ("user_" ++ toString j) with
  | none => .ok none
  | some ud =>
      if !ud.truthy then .ok none
      else
        match ud with
        | .obj ufs =>
            match getField ufs "nodes" with
            | none => .ok none
            | some nodesJson => do
                let rg ← aliasReviewsGiven dfs j
                let prs ← (match nodesJson with
                  | .arr xs => .ok (xs.filterMap (userPRNode (rg : Int)))
                  | .str _ => .ok ([] : List PullRequest)
                  | .obj _ => .ok ([] : List PullRequest)
                  | _ => .error ())
                .ok (some prs)
        | _ => .error ()

/-- The condition under which the loop body `continue`s and the username
keeps its initial `[]`: the `user_j` alias data is absent, falsy, or a
dict without a `nodes` key (`if not user_data or 'nodes' not in
user_data`, `client.py` line 143). -/
def aliasDataMissing (dfs : List (String × Json)) (j : Nat) : Bool :=
  match getField dfs ("user_" ++ toString j) with
  | none => true
  | some ud =>
      !ud.truthy ||
        (match ud with
         | .obj ufs => (getField ufs "nodes").isNone
         | _ => false)

/-- `results = {username: [] for username in batch}` (`client.py` line 137). -/
def initDict (batch : List String) : PyDict (List PullRequest) :=
  batch.foldl (fun d u => d.insert u []) []

/-- The `for j, username in enumerate(batch)` loop (`client.py` lines
139-173) over the already-built alias data. -/
def processLoop (dfs : List (String × Json)) :
    List (Nat × String) → PyDict (List PullRequest) →
    Except Unit (PyDict (List PullRequest))
  | [], d => .ok d
  | (j, u) :: rest, d =>
      match processUserAlias dfs j with
      | .error _ => .error ()
      | .ok none => processLoop dfs rest d
      | .ok (some prs) => processLoop dfs rest (d.insert u prs)

/-- `GitHubClient._process_user_batch` (`client.py` lines 88-175), applied
to the GraphQL response it received for the batch.  `if not response or
'data' not in response: raise ValueError` is the first guard; a `data`
value that is not a dict makes `response['data'].get(...)` raise at the
first loop iteration (with an empty batch the loop never runs).  A truthy
non-dict response is modelled as aborting at the membership test. -/
def _process_user_batch (batch : List String) (response : Json) :
    Except Unit (PyDict (List PullRequest)) :=
  if !response.truthy then .error ()
  else
    match response with
    | .obj rs =>
        match getField rs "data" with
        | none => .error ()
        | some dataJson =>
            match dataJson with
            | .obj dfs => processLoop dfs batch.enum (initDict batch)
            | _ => if batch.isEmpty then .ok (initDict batch) else .error ()
    | _ => .error ()

/-! ## Batching (`get_users_contributed_repos_and_prs`, `client.py` lines 66-85) -/

/-- `BATCH_SIZE = 25` (`client.py` line 74). -/
def BATCH_SIZE : Nat := 25

/-- The body of `for i in range(0, len(usernames), n)` run for `k`
iterations: at step `i` the slice `usernames[i:i + n]` is `take n` of what
is left, and the remainder `drop n`. -/
def chunkIter {α : Type} (n : Nat) : Nat → List α → List (List α)
  | 0, _ => []
  | k + 1, l => l.take n :: chunkIter n k (l.drop n)

/-- `[usernames[i:i + n] for i in range(0, len(usernames), n)]`: the
`range` has `⌈len/n⌉` steps. -/
def chunkList {α : Type} (n : Nat) (l : List α) : List (List α) :=
  chunkIter n ((l.length + n - 1) / n) l

/-- Body of the batch loop of `get_users_contributed_repos_and_prs`
(`client.py` lines 75-83): process the batch against the network's
response, merge with `results.update(batch_results)`, then `time.sleep(1)`
— the sleep is unconditional, so it also runs after the last batch.  The
`Nat` component counts executed `time.sleep(1)` calls; an exception from a
batch (after the retry wrapper gives up) propagates before that batch's
sleep. -/
def gucLoop (net : List String → Json) :
    List (List String) → PyDict (List PullRequest) → Nat →
    Except Unit (PyDict (List PullRequest)) × Nat
  | [], acc, sleeps => (.ok acc, sleeps)
  | b :: rest, acc, sleeps =>
      match _process_user_batch b (net b) with
      | .error _ => (.error (), sleeps)
      | .ok br => gucLoop net rest (acc.update br) (sleeps + 1)

/-- `GitHubClient.get_users_contributed_repos_and_prs` (`client.py` lines
66-85), with the network abstracted as a map from the batch to the GraphQL
response its (retry-wrapped) `_process_user_batch` call ends up
processing.  Returns the merged mapping together with the number of
`time.sleep(1)` calls executed. -/
def get_users_contributed_repos_and_prs (net : List String → Json)
    (usernames : List String) :
    Except Unit (PyDict (List PullRequest)) × Nat :=
  gucLoop net (chunkList BATCH_SIZE usernames) [] 0

/-! ## Retry policy (`retry_with_backoff`, `client.py` lines 25-46) -/

/-- The `while True` loop of the `retry_with_backoff` wrapper: `f x` is
the outcome of attempt number `x` (0-based), `fuel` the remaining extra
attempts (`retries - x`).  On an exception: when no retries remain the
exception is re-raised as-is; otherwise the wrapper sleeps
`backoff * 2 ** x + jitter` seconds (jitter drawn from `[0,1)`) and tries
again.  The second component records the waits in order. -/
def retryLoop {ε α : Type} (f : Nat → Except ε α) (backoff : ℚ)
    (jitter : Nat → ℚ) : Nat → Nat → Except ε α × List ℚ
  | x, fuel =>
      match f x, fuel with
      | .ok a, _ => (.ok a, [])
      | .error e, 0 => (.error e, [])
      | .error _, fuel' + 1 =>
          let rest := retryLoop f backoff jitter (x + 1) fuel'
          (rest.1, (backoff * 2 ^ x + jitter x) :: rest.2)

/-- `@retry_with_backoff(retries=3, backoff_in_seconds=1)` applied to an
operation whose attempt outcomes are `f`. -/
def retry_with_backoff {ε α : Type} (f : Nat → Except ε α)
    (jitter : Nat → ℚ) : Except ε α × List ℚ :=
  retryLoop f 1 jitter 0 3

/-! ## Result caching (`functools.lru_cache(maxsize=32)`, `clear_cache`) -/

/-- State of a `functools.lru_cache`: entries in most-recently-used-first
order, bounded by `maxsize`. -/
structure LruCache (κ ν : Type) where
  maxsize : Nat
  entries : List (κ × ν)

/-- A fresh cache (what `@lru_cache(maxsize=n)` starts with). -/
def LruCache.new {κ ν : Type} (maxsize : Nat) : LruCache κ ν :=
  { maxsize := maxsize, entries := [] }

/-- Cache lookup (no reordering). -/
def LruCache.lookup {κ ν : Type} [DecidableEq κ] (c : LruCache κ ν) (k : κ) :
    Option ν :=
  (c.entries.find? (fun p => decide (p.1 = k))).map Prod.snd

/-- One call through the cached wrapper: on a hit the stored value is
returned (moved to most-recent) without invoking `f`; on a miss `f` is
invoked, the result stored most-recent, and the least-recently-used
entries beyond `maxsize` evicted.  The `Bool` records whether the
underlying function (the network round trip) ran. -/
def LruCache.call {κ ν : Type} [DecidableEq κ] (c : LruCache κ ν)
    (f : κ → ν) (k : κ) : ν × LruCache κ ν × Bool :=
  match c.entries.find? (fun p => decide (p.1 = k)) with
  | some p =>
      (p.2, { c with entries := (k, p.2) :: c.entries.filter (fun q => decide (q.1 ≠ k)) },
       false)
  | none =>
      let v := f k
      (v, { c with entries := ((k, v) :: c.entries).take c.maxsize }, true)

/-- `functools._lru_cache_wrapper.cache_clear()`: empties the entry list.
This method exists on the inner `lru_cache` wrapper object, but it is not
reachable through the `timer` wrapper that `GitHubClient.clear_cache`
actually addresses — see `clear_cache` below. -/
def LruCache.clear {κ ν : Type} (c : LruCache κ ν) : LruCache κ ν :=
  { c with entries := [] }

/-- Cache key of `get_users_contributed_repos_and_prs` within one client:
the `(usernames-as-tuple, org, since_days)` argument triple. -/
abbrev GucKey : Type := List String × String × Int

/-- Cached value: the mapping the call returned. -/
abbrev GucResult : Type := PyDict (List PullRequest)

/-- The `@lru_cache(maxsize=32)` instance wrapping
`get_users_contributed_repos_and_prs` (`client.py` line 67), initially
empty. -/
def gucCache : LruCache GucKey GucResult :=
  LruCache.new 32

/-! ## Organization member pagination (`get_org_members`, `client.py` lines 177-228) -/

/-- The `first: 100` page size requested by the `membersWithRole`
connection in the `get_org_members` GraphQL document (`client.py` line 184). -/
def members_page_size : Nat := 100

/-- One `{login, url, type}` member record (`client.py` lines 217-221). -/
structure OrgMember where
  login : String
  url : String
  type : String
deriving DecidableEq

/-- `{'login': member['login'], 'url': member['url'], 'type':
member['type']}` — bracket access, so a missing key raises uncaught
(`none` here makes the whole page fail). -/
def parseMember (j : Json) : Option OrgMember :=
  match j with
  | .obj fs => do
      let login ← (← getField fs "login").asStr?
      let url ← (← getField fs "url").asStr?
      let ty ← (← getField fs "type").asStr?
      pure { login := login, url := url, type := ty }
  | _ => none

/-- One iteration of the `get_org_members` loop body on a response
(`client.py` lines 208-226): `if not response.get('data')` is the fatal
not-found check; then `response['data']['organization']['membersWithRole']`
bracket accesses, the member comprehension, and
`pageInfo['hasNextPage']` / `pageInfo['endCursor']` (the cursor is only
read when another page will be fetched).  Any missing key or non-dict
access raises uncaught: `none`. -/
def parsePage (resp : Json) : Option (List OrgMember × Bool) :=
  match resp with
  | .obj fs =>
      match getField fs "data" with
      | none => none
      | some d =>
          if !d.truthy then none
          else
            match d with
            | .obj dfs =>
                match getField dfs "organization" with
                | some (.obj ofs) =>
                    match getField ofs "membersWithRole" with
                    | some (.obj mfs) =>
                        match getField mfs "nodes", getField mfs "pageInfo" with
                        | some (.arr nodes), some (.obj pfs) => do
                            let members ← nodes.mapM parseMember
                            let hnp ← getField pfs "hasNextPage"
                            if hnp.truthy then
                              let _ ← getField pfs "endCursor"
                              pure (members, true)
                            else
                              pure (members, false)
                        | _, _ => none
                    | _ => none
                | _ => none
            | _ => none
  | _ => none

/-- `GitHubClient.get_org_members` (`client.py` lines 177-228) run against
the successive page responses the upstream returns: accumulate each page's
members and stop after the first page reporting no next page.  Running out
of modelled responses while the loop still wants a page, or any in-page
failure, is `error`. -/
def get_org_members : List Json → Except Unit (List OrgMember)
  | [] => .error ()
  | r :: rest =>
      match parsePage r with
      | none => .error ()
      | some (ms, true) => (get_org_members rest).map (fun tail => ms ++ tail)
      | some (ms, false) => .ok ms

/-- A well-formed pagination run: every response parses, all pages but the
last report a next page, the last reports none.  `pages` lists each
response's member nodes. -/
def goodRun : List Json → List (List OrgMember) → Bool
  | [], _ => false
  | _ :: _, [] => false
  | [r], [ns] => decide (parsePage r = some (ns, false))
  | [_], _ :: _ :: _ => false
  | r :: r2 :: rs, ns :: nss =>
      decide (parsePage r = some (ns, true)) && goodRun (r2 :: rs) nss

/-! ## `clear_cache` through the `timer` wrapper (`client.py` lines 242-245) -/

/-- Attribute lookup on the `timer` wrapper wrapping each cached method
(`@timer` sits above `@lru_cache`, `client.py` lines 66-67 and 177-178).
`functools.wraps` copies `__module__`, `__name__`, `__qualname__`,
`__doc__` (and the annotation mapping), sets `__wrapped__`, and merges the
wrapped function's instance `__dict__` — which is empty on the C
`_lru_cache_wrapper`, whose `cache_clear`/`cache_info` are methods of its
type.  So `cache_clear` is absent on the `timer` wrapper. -/
def timerWrapperHasAttr : String → Bool
  | "__module__" => true
  | "__name__" => true
  | "__qualname__" => true
  | "__doc__" => true
  | "__wrapped__" => true
  | _ => false

/-- `GitHubClient.clear_cache` (`client.py` lines 242-245) acting on the
two method caches.  Its first statement evaluates
`self.get_org_members.cache_clear`: an attribute lookup on the `timer`
wrapper, where `cache_clear` is absent (`timerWrapperHasAttr`), so an
`AttributeError` propagates and neither cache is touched.  (Were the
attribute reachable, both caches would be emptied via `LruCache.clear`.) -/
def clear_cache (members : LruCache String (List OrgMember))
    (guc : LruCache GucKey GucResult) :
    Except Unit (LruCache String (List OrgMember) × LruCache GucKey GucResult) :=
  if timerWrapperHasAttr "cache_clear" then .ok (members.clear, guc.clear)
  else .error ()

/-! ## Concrete fixtures used by witnesses and counterexamples -/

/-- A sample fully-populated pull request. -/
def prW : PullRequest :=
  { number := some 1, additions := 5, deletions := 2,
    created_at := some "2024-01-01", merged_at := none,
    state := "MERGED", reviews_given := 4 }

/-- A second sample pull request. -/
def prW2 : PullRequest :=
  { number := some 2, additions := 3, deletions := 1,
    created_at := some "2024-01-02", merged_at := none,
    state := "OPEN", reviews_given := 4 }

/-- Attempt outcomes of an operation failing twice then succeeding. -/
def retryDemoOk : Nat → Except Nat Nat := fun x => if x = 2 then .ok 42 else .error x

/-- Attempt outcomes of an operation that always fails. -/
def retryDemoFail : Nat → Except Nat Nat := fun x => .error x

/-- A concrete jitter draw (each draw at the low end of `[0,1)`). -/
def zeroJitter : Nat → ℚ := fun _ => 0

/-- A concrete network computation for cache demonstrations. -/
def demoCompute : GucKey → GucResult := fun _ => []

/-- A concrete `(usernames, org, since_days)` cache key. -/
def demoKey : GucKey := (["alice", "bob"], "acme", 7)

/-- A cache at full capacity: 32 distinct keys. -/
def fullCache : LruCache GucKey GucResult :=
  { maxsize := 32,
    entries := (List.range 32).map
      (fun i => ((([toString i] : List String), "o", (0 : Int)), ([] : GucResult))) }

/-- A key not present in `fullCache`. -/
def freshKey : GucKey := (["x"], "o", 0)

/-- A member node as the membership query returns it. -/
def memberJ (s : String) : Json :=
  .obj [("login", .str s), ("url", .str "u"), ("type", .str "User")]

/-- A full membership page response with the given member logins and
`hasNextPage` flag. -/
def pageJ (ms : List String) (hnp : Bool) : Json :=
  .obj [("data", .obj [("organization", .obj [("membersWithRole", .obj
    [("nodes", .arr (ms.map memberJ)),
     ("pageInfo", .obj [("hasNextPage", .bool hnp), ("endCursor", .str "c")])])])])]

/-- The parsed record of `memberJ s`. -/
def memberW (s : String) : OrgMember := { login := s, url := "u", type := "User" }

/-- A network stub answering every batch with an empty `data` object. -/
def emptyNet : List String → Json := fun _ => Json.obj [("data", Json.obj [])]

/-- Thirty distinct usernames. -/
def users30 : List String := (List.range 30).map (fun i => toString i)

/-- The mapping `get_users_contributed_repos_and_prs emptyNet users30`
returns: every username mapped to the empty list. -/
def m30 : PyDict (List PullRequest) :=
  users30.map (fun u => (u, ([] : List PullRequest)))

/-- Fields of a well-formed `user_j` PR node with every requested field
present. -/
def wfFields : List (String × Json) :=
  [("number", .num 1), ("additions", .num 5), ("deletions", .num 2),
   ("createdAt", .str "2024-01-01"), ("mergedAt", .null),
   ("state", .str "MERGED")]

/-- A well-formed `user_j` PR node with every requested field present. -/
def wfNode : Json := .obj wfFields

/-- The `PullRequest` built from `wfNode` (with no reviews counted). -/
def pr_wf : PullRequest :=
  { number := some 1, additions := 5, deletions := 2,
    created_at := some "2024-01-01", merged_at := none,
    state := "MERGED", reviews_given := 0 }

/-- Fields of a PR node missing the required fields `number`, `createdAt`
and `state` (only `additions` is present). -/
def badFields : List (String × Json) := [("additions", .num 7)]

/-- A PR node missing required fields. -/
def badNode : Json := .obj badFields

/-- The `PullRequest` the code builds from `badNode`: `dict.get` fills the
missing fields with `None`/defaults and the dataclass accepts them. -/
def pr_bad : PullRequest :=
  { number := none, additions := 7, deletions := 0,
    created_at := none, merged_at := none,
    state := "unknown", reviews_given := 0 }

/-- A single-user batch response holding one well-formed node and one node
missing required fields. -/
def cexResp : Json :=
  .obj [("data", .obj [("user_0", .obj [("nodes", .arr [wfNode, badNode])])])]

/-- A two-user batch response in which only `user_0` has alias data. -/
def c10resp : Json :=
  .obj [("data", .obj [("user_0", .obj [("nodes", .arr [wfNode])])])]

/-- The field list of `c10resp`'s `data` object. -/
def c10data : List (String × Json) :=
  [("user_0", .obj [("nodes", .arr [wfNode])])]

/-- The mapping `_process_user_batch ["alice", "bob"] c10resp` returns. -/
def c10result : PyDict (List PullRequest) :=
  [("alice", [pr_wf]), ("bob", [])]

/-- A single-user batch response whose `user_0` alias carries the given
PR nodes (and no `reviews_0` alias data). -/
def mkSingleUserResp (nodes : List Json) : Json :=
  .obj [("data", .obj [("user_0", .obj [("nodes", .arr nodes)])])]

/-- A review node whose author is present. -/
def revA : Json := .obj [("number", .num 1), ("author", .obj [("login", .str "bob")])]

/-- A review node whose author is null (inaccessible author). -/
def revB : Json := .obj [("number", .num 2), ("author", .null)]

/-- A reviews list with one null node, one authored node, one
null-authored node. -/
def revXs : List Json := [.null, revA, revB]

end GithubMetrics

namespace GithubMetrics

/-! ## Helper lemmas -/

theorem length_sortInt (l : List Int) : (sortInt l).length = l.length :=
  List.length_insertionSort _ l

theorem median_odd (l : List Int) (h : l.length % 2 = 1) :
    median l = (((sortInt l).getD (l.length / 2) 0 : Int) : ℚ) := by
  simp only [median]
  rw [length_sortInt, if_pos h]

theorem median_even (l : List Int) (h : l.length % 2 = 0) :
    median l
      = ((((sortInt l).getD (l.length / 2 - 1) 0 : Int) : ℚ)
         + (((sortInt l).getD (l.length / 2) 0 : Int) : ℚ)) / 2 := by
  simp only [median]
  rw [length_sortInt, if_neg (by omega)]
  push_cast
  ring

/-! ## Claims about the aggregator -/

/-- C1: `_calculate_metrics` returns, for every list of `PullRequest`
records, metrics whose `median_changes` is the statistical median of
`additions + deletions` per PR (the middle element of a sorted permutation
for odd lengths, the average of the two middle elements for even lengths),
whose `total_additions`/`total_deletions` are the per-PR sums, whose
`total_prs` is the list length, and which is `ContributionMetrics.empty`
(all zero) on the empty list. -/
theorem claim_C1 (prs : List PullRequest) (l : List Int) :
    _calculate_metrics [] = ContributionMetrics.empty
    ∧ (prs ≠ [] →
        (_calculate_metrics prs).total_prs = prs.length
        ∧ (_calculate_metrics prs).total_additions
            = (prs.map PullRequest.additions).sum
        ∧ (_calculate_metrics prs).total_deletions
            = (prs.map PullRequest.deletions).sum
        ∧ (_calculate_metrics prs).median_changes
            = median (prs.map (fun pr => pr.additions + pr.deletions)))
    ∧ List.Sorted (· ≤ ·) (sortInt l)
    ∧ (sortInt l).Perm l
    ∧ (l.length % 2 = 1 →
        median l = (((sortInt l).getD (l.length / 2) 0 : Int) : ℚ))
    ∧ (l.length % 2 = 0 →
        median l
          = ((((sortInt l).getD (l.length / 2 - 1) 0 : Int) : ℚ)
             + (((sortInt l).getD (l.length / 2) 0 : Int) : ℚ)) / 2) := by
  refine ⟨rfl, ?_, List.sorted_insertionSort _ l, List.perm_insertionSort _ l,
    median_odd l, median_even l⟩
  intro h
  refine ⟨?_, ?_, ?_, ?_⟩ <;> simp [_calculate_metrics, if_neg h]

/-- Witness for C1, at the spec's own examples: per-PR changes
`[10, 20, 30]` give median `20`, `[10, 20, 30, 40]` give `25`, and the
totals of `(5,2)` and `(3,1)` are `8` and `3`. -/
theorem claim_C1_witness :
    median [10, 20, 30] = 20
    ∧ median [10, 20, 30, 40] = 25
    ∧ (_calculate_metrics [prW, prW2]).total_additions = 8
    ∧ (_calculate_metrics [prW, prW2]).total_deletions = 3
    ∧ _calculate_metrics [] = ContributionMetrics.empty := by
  have hodd := (claim_C1 [prW, prW2] [10, 20, 30]).2.2.2.2.1 (by decide)
  have heven := (claim_C1 [prW, prW2] [10, 20, 30, 40]).2.2.2.2.2 (by decide)
  have hfields := (claim_C1 [prW, prW2] []).2.1 (by decide)
  refine ⟨?_, ?_, ?_, ?_, (claim_C1 [] []).1⟩
  · rw [hodd]; norm_num [sortInt, List.insertionSort, List.orderedInsert]
  · rw [heven]; norm_num [sortInt, List.insertionSort, List.orderedInsert]
  · rw [hfields.2.1]; decide
  · rw [hfields.2.2.1]; decide

/-- C2: `multiplied_changes` is computed on read and always equals
`median_changes * total_prs`, both for arbitrary metrics values and for
the aggregator's output on any non-empty PR list. -/
theorem claim_C2 (m : ContributionMetrics) (prs : List PullRequest) :
    m.multiplied_changes = m.median_changes * (m.total_prs : ℚ)
    ∧ (prs ≠ [] →
        (_calculate_metrics prs).multiplied_changes
          = (_calculate_metrics prs).median_changes
            * ((_calculate_metrics prs).total_prs : ℚ)) :=
  ⟨rfl, fun _ => rfl⟩

/-- Witness for C2 on a concrete two-PR aggregation. -/
theorem claim_C2_witness :
    (_calculate_metrics [prW, prW2]).multiplied_changes
      = (_calculate_metrics [prW, prW2]).median_changes
        * ((_calculate_metrics [prW, prW2]).total_prs : ℚ) :=
  (claim_C2 ContributionMetrics.empty [prW, prW2]).2 (by decide)

/-! ## Claim about the retry policy -/

/-- C5: with `retries=3, backoff_in_seconds=1`, the wait before retry
`x+1` is `1 * 2 ^ x` seconds plus the jitter draw from `[0,1)` (so each
wait lies in `[2^x, 2^x + 1)`); an operation failing twice then succeeding
on the third attempt returns the successful result after waits of `1` and
`2` (plus jitter) seconds; an always-failing operation is attempted `4`
times in total, waits `1`, `2`, `4` (plus jitter) seconds, and its final
attempt's error propagates unmodified. -/
theorem claim_C5 {ε α : Type} (f : Nat → Except ε α) (jitter : Nat → ℚ)
    (e0 e1 : ε) (a : α) (g : Nat → ε)
    (hj : ∀ x, 0 ≤ jitter x ∧ jitter x < 1) :
    (∀ x : Nat, (2 : ℚ) ^ x ≤ (1 : ℚ) * 2 ^ x + jitter x
      ∧ (1 : ℚ) * 2 ^ x + jitter x < 2 ^ x + 1)
    ∧ (f 0 = .error e0 → f 1 = .error e1 → f 2 = .ok a →
        retry_with_backoff f jitter = (.ok a, [1 + jitter 0, 2 + jitter 1]))
    ∧ ((∀ x, f x = .error (g x)) →
        retry_with_backoff f jitter
          = (.error (g 3), [1 + jitter 0, 2 + jitter 1, 4 + jitter 2])) := by
  refine ⟨?_, ?_, ?_⟩
  · intro x
    have := hj x
    constructor <;> nlinarith [this.1, this.2]
  · intro h0 h1 h2
    simp [retry_with_backoff, retryLoop, h0, h1, h2]
  · intro hall
    simp [retry_with_backoff, retryLoop, hall 0, hall 1, hall 2, hall 3]
    norm_num

/-- Witness for C5: a fail-fail-succeed run returns the success after
waits `1, 2`; an always-failing run waits `1, 2, 4` and surfaces the
fourth attempt's error. -/
theorem claim_C5_witness :
    retry_with_backoff retryDemoOk zeroJitter = (.ok 42, [1, 2])
    ∧ retry_with_backoff retryDemoFail zeroJitter = (.error 3, [1, 2, 4]) := by
  have h1 := (claim_C5 retryDemoOk zeroJitter 0 1 42 (fun x => x)
    (by intro x; norm_num [zeroJitter])).2.1 rfl rfl rfl
  have h2 := (claim_C5 retryDemoFail zeroJitter 0 1 0 (fun x => x)
    (by intro x; norm_num [zeroJitter])).2.2 (fun x => rfl)
  constructor
  · rw [h1]; norm_num [zeroJitter]
  · rw [h2]; norm_num [zeroJitter, retryDemoFail]

/-! ## Claim about the result cache -/

theorem lookup_eq_none_iff {κ ν : Type} [DecidableEq κ] (c : LruCache κ ν) (k : κ) :
    c.lookup k = none ↔ c.entries.find? (fun p => decide (p.1 = k)) = none := by
  simp [LruCache.lookup]

/-- C6 (counterexample): the claim's "after an explicit cache clear, a
third identical call issues a new network round trip" is false of the
program.  After two identical calls populate the cache, the explicit
clear — `clear_cache` — raises `AttributeError` (the `timer` wrapper
carries no `cache_clear`) without touching the cache, and the third
identical call is still answered from the cache with no network round
trip. -/
theorem claim_C6_counterexample :
    clear_cache (LruCache.new 32)
        (((gucCache.call demoCompute demoKey).2.1.call demoCompute demoKey).2.1)
      = .error ()
    ∧ ((((gucCache.call demoCompute demoKey).2.1.call demoCompute
          demoKey).2.1).call demoCompute demoKey).2.2 = false := by
  constructor
  · rfl
  · decide

/-- C6 as amended: on the fresh `lru_cache(maxsize=32)` wrapping
`get_users_contributed_repos_and_prs`, the first call with a given
`(usernames, org, since_days)` key runs the underlying network function
and the second identical call does not, returning the identical cached
mapping; the capacity is 32, and a miss on a full cache evicts exactly
the least-recently-used (last) entry, keeping the entry count at most 32.
The explicit clear, however, is broken: `clear_cache` raises
`AttributeError` before touching either cache — `functools.wraps` in
`timer` does not carry the C `_lru_cache_wrapper`'s `cache_clear` onto
the wrapper — so a third identical call after the attempted clear is
still answered from the cache, with the cached mapping and no network
round trip. -/
theorem claim_C6 (f : GucKey → GucResult) (k k' : GucKey)
    (c : LruCache GucKey GucResult)
    (mc : LruCache String (List OrgMember)) (gc : LruCache GucKey GucResult)
    (hsize : c.maxsize = 32) (hfull : c.entries.length = 32)
    (hmiss : c.lookup k' = none) :
    (gucCache.call f k).2.2 = true
    ∧ ((gucCache.call f k).2.1.call f k).2.2 = false
    ∧ ((gucCache.call f k).2.1.call f k).1 = (gucCache.call f k).1
    ∧ clear_cache mc gc = .error ()
    ∧ ((((gucCache.call f k).2.1.call f k).2.1).call f k).2.2 = false
    ∧ ((((gucCache.call f k).2.1.call f k).2.1).call f k).1 = (gucCache.call f k).1
    ∧ gucCache.maxsize = 32
    ∧ (c.call f k').2.1.entries = (k', f k') :: c.entries.dropLast
    ∧ (c.call f k').2.1.entries.length ≤ 32 := by
  have hfind : c.entries.find? (fun p => decide (p.1 = k')) = none :=
    (lookup_eq_none_iff c k').mp hmiss
  refine ⟨rfl, ?_, ?_, rfl, ?_, ?_, rfl, ?_, ?_⟩
  · simp [gucCache, LruCache.new, LruCache.call]
  · simp [gucCache, LruCache.new, LruCache.call]
  · simp [gucCache, LruCache.new, LruCache.call]
  · simp [gucCache, LruCache.new, LruCache.call]
  · simp only [LruCache.call, hfind, hsize]
    rw [List.take_succ_cons]
    congr 1
    rw [List.dropLast_eq_take, hfull]
  · simp only [LruCache.call, hfind, hsize]
    simp [List.length_take]

/-- Witness for C6's amended claim at a concrete key, computation and
full cache. -/
theorem claim_C6_witness :
    (gucCache.call demoCompute demoKey).2.2 = true
    ∧ ((gucCache.call demoCompute demoKey).2.1.call demoCompute demoKey).2.2 = false
    ∧ clear_cache (LruCache.new 32) gucCache = .error ()
    ∧ (fullCache.call demoCompute freshKey).2.1.entries.length ≤ 32 := by
  have h := claim_C6 demoCompute demoKey freshKey fullCache (LruCache.new 32)
    gucCache rfl (by decide) (by decide)
  exact ⟨h.1, h.2.1, h.2.2.2.1, h.2.2.2.2.2.2.2.2⟩

/-! ## Claim about member-list pagination -/

theorem length_flatten_eq {α : Type} (l : List (List α)) :
    l.flatten.length = (l.map List.length).sum := by
  induction l with
  | nil => simp
  | cons x xs ih => simp [ih]

/-- C8: on any pagination run in which every page parses, every page but
the last reports a next page and the last reports none, `get_org_members`
returns the concatenation of all pages' member nodes in order (ignoring
any responses beyond the terminating page, which are never requested), its
length is the sum of the page sizes, and the requested page size is 100. -/
theorem claim_C8 (ps extra : List Json) (pages : List (List OrgMember))
    (h : goodRun ps pages = true) :
    get_org_members (ps ++ extra) = .ok pages.flatten
    ∧ pages.flatten.length = (pages.map List.length).sum
    ∧ members_page_size = 100 := by
  refine ⟨?_, length_flatten_eq pages, rfl⟩
  induction ps generalizing pages with
  | nil => simp [goodRun] at h
  | cons r rs ih =>
      cases pages with
      | nil => simp [goodRun] at h
      | cons ns nss =>
          cases rs with
          | nil =>
              cases nss with
              | nil =>
                  simp only [goodRun, decide_eq_true_eq] at h
                  simp [get_org_members, h]
              | cons n2 ns2 => simp [goodRun] at h
          | cons r2 rs2 =>
              simp only [goodRun, Bool.and_eq_true, decide_eq_true_eq] at h
              have hrest := ih nss h.2
              rw [List.cons_append, get_org_members, h.1]
              show Except.map _ (get_org_members ((r2 :: rs2) ++ extra)) = _
              rw [hrest]
              rfl

/-- Witness for C8: a two-page run (2 members then 1, page sizes summing
to 3) accumulates all three members in order and never consumes a page
after the one reporting no next page. -/
theorem claim_C8_witness :
    get_org_members ([pageJ ["a", "b"] true, pageJ ["c"] false] ++ [pageJ ["z"] false])
      = .ok [memberW "a", memberW "b", memberW "c"]
    ∧ ([[memberW "a", memberW "b"], [memberW "c"]].map List.length).sum = 3 := by
  have h := claim_C8 [pageJ ["a", "b"] true, pageJ ["c"] false] [pageJ ["z"] false]
    [[memberW "a", memberW "b"], [memberW "c"]] (by decide)
  refine ⟨?_, by decide⟩
  rw [h.1]
  rfl

/-! ## Dictionary lemmas for the batch demultiplexer -/

theorem PyDict.insert_cons_self {α : Type} (a : String) (b v : α)
    (rest : PyDict α) : PyDict.insert ((a, b) :: rest) a v = (a, v) :: rest := by
  simp [PyDict.insert]

theorem PyDict.insert_cons_ne {α : Type} {a k : String} (b v : α)
    (rest : PyDict α) (h : a ≠ k) :
    PyDict.insert ((a, b) :: rest) k v = (a, b) :: PyDict.insert rest k v := by
  simp [PyDict.insert, h]

theorem PyDict.lookup_cons {α : Type} (a : String) (b : α) (rest : PyDict α)
    (u : String) :
    PyDict.lookup ((a, b) :: rest) u
      = if a = u then some b else rest.lookup u := rfl

theorem PyDict.keys_cons {α : Type} (a : String) (b : α) (rest : PyDict α) :
    PyDict.keys ((a, b) :: rest) = a :: rest.keys := rfl

theorem PyDict.lookup_insert_self {α : Type} (d : PyDict α) (k : String) (v : α) :
    (d.insert k v).lookup k = some v := by
  induction d with
  | nil => simp [PyDict.insert, PyDict.lookup]
  | cons p rest ih =>
      obtain ⟨a, b⟩ := p
      by_cases h : a = k
      · subst h
        rw [PyDict.insert_cons_self, PyDict.lookup_cons, if_pos rfl]
      · rw [PyDict.insert_cons_ne b v rest h, PyDict.lookup_cons, if_neg h, ih]

theorem PyDict.lookup_insert_ne {α : Type} (d : PyDict α) {k k' : String} (v : α)
    (h : k' ≠ k) : (d.insert k v).lookup k' = d.lookup k' := by
  induction d with
  | nil => simp [PyDict.insert, PyDict.lookup, Ne.symm h]
  | cons p rest ih =>
      obtain ⟨a, b⟩ := p
      by_cases ha : a = k
      · subst ha
        rw [PyDict.insert_cons_self, PyDict.lookup_cons, PyDict.lookup_cons,
          if_neg (Ne.symm h), if_neg (Ne.symm h)]
      · rw [PyDict.insert_cons_ne b v rest ha, PyDict.lookup_cons,
          PyDict.lookup_cons, ih]

theorem PyDict.mem_keys_insert {α : Type} (d : PyDict α) (k u : String) (v : α) :
    u ∈ (d.insert k v).keys ↔ u ∈ d.keys ∨ u = k := by
  induction d with
  | nil => simp [PyDict.insert, PyDict.keys, eq_comm]
  | cons p rest ih =>
      obtain ⟨a, b⟩ := p
      by_cases ha : a = k
      · subst ha
        rw [PyDict.insert_cons_self, PyDict.keys_cons, PyDict.keys_cons]
        simp only [List.mem_cons]
        tauto
      · rw [PyDict.insert_cons_ne b v rest ha, PyDict.keys_cons, PyDict.keys_cons]
        simp only [List.mem_cons]
        rw [ih]
        tauto

theorem PyDict.keys_insert_of_mem {α : Type} (d : PyDict α) {k : String} (v : α)
    (h : k ∈ d.keys) : (d.insert k v).keys = d.keys := by
  induction d with
  | nil => simp [PyDict.keys] at h
  | cons p rest ih =>
      obtain ⟨a, b⟩ := p
      by_cases ha : a = k
      · subst ha
        rw [PyDict.insert_cons_self, PyDict.keys_cons, PyDict.keys_cons]
      · rw [PyDict.keys_cons, List.mem_cons] at h
        rcases h with h | h
        · exact absurd h.symm ha
        · rw [PyDict.insert_cons_ne b v rest ha, PyDict.keys_cons,
            PyDict.keys_cons, ih h]

theorem PyDict.nodup_keys_insert {α : Type} (d : PyDict α) (k : String) (v : α)
    (h : d.keys.Nodup) : (d.insert k v).keys.Nodup := by
  induction d with
  | nil => simp [PyDict.insert, PyDict.keys]
  | cons p rest ih =>
      obtain ⟨a, b⟩ := p
      rw [PyDict.keys_cons, List.nodup_cons] at h
      by_cases ha : a = k
      · subst ha
        rw [PyDict.insert_cons_self, PyDict.keys_cons]
        exact List.nodup_cons.mpr h
      · rw [PyDict.insert_cons_ne b v rest ha, PyDict.keys_cons]
        refine List.nodup_cons.mpr ⟨?_, ih h.2⟩
        intro hmem
        rcases (PyDict.mem_keys_insert rest k a v).mp hmem with hh | hh
        · exact h.1 hh
        · exact ha hh

theorem PyDict.lookup_isSome_iff {α : Type} (d : PyDict α) (u : String) :
    (d.lookup u).isSome ↔ u ∈ d.keys := by
  induction d with
  | nil => simp [PyDict.lookup, PyDict.keys]
  | cons p rest ih =>
      obtain ⟨a, b⟩ := p
      rw [PyDict.lookup_cons, PyDict.keys_cons, List.mem_cons]
      by_cases ha : a = u
      · simp [ha]
      · simp [ha, ih, Ne.symm ha]

theorem initFold_lookup (batch : List String) (d : PyDict (List PullRequest))
    (u : String) :
    ((batch.foldl (fun d u => d.insert u []) d).lookup u)
      = if u ∈ batch then some [] else d.lookup u := by
  induction batch generalizing d with
  | nil => simp
  | cons x rest ih =>
      simp only [List.foldl_cons, List.mem_cons]
      rw [ih]
      by_cases hx : u ∈ rest
      · simp [hx]
      · by_cases hu : u = x
        · subst hu
          simp [hx, PyDict.lookup_insert_self]
        · simp [hx, hu, PyDict.lookup_insert_ne _ _ hu]

theorem initFold_mem_keys (batch : List String) (d : PyDict (List PullRequest))
    (u : String) :
    u ∈ (batch.foldl (fun d u => d.insert u []) d).keys
      ↔ u ∈ d.keys ∨ u ∈ batch := by
  induction batch generalizing d with
  | nil => simp
  | cons x rest ih =>
      simp only [List.foldl_cons, List.mem_cons]
      rw [ih, PyDict.mem_keys_insert]
      tauto

theorem initFold_nodup (batch : List String) (d : PyDict (List PullRequest))
    (h : d.keys.Nodup) :
    (batch.foldl (fun d u => d.insert u []) d).keys.Nodup := by
  induction batch generalizing d with
  | nil => exact h
  | cons x rest ih =>
      exact ih _ (PyDict.nodup_keys_insert d x [] h)

theorem initDict_lookup (batch : List String) (u : String) :
    (initDict batch).lookup u = if u ∈ batch then some [] else none := by
  rw [initDict, initFold_lookup]
  rfl

theorem initDict_mem_keys (batch : List String) (u : String) :
    u ∈ (initDict batch).keys ↔ u ∈ batch := by
  rw [initDict, initFold_mem_keys]
  simp [PyDict.keys]

theorem initDict_nodup (batch : List String) : (initDict batch).keys.Nodup := by
  rw [initDict]
  exact initFold_nodup batch [] (by simp [PyDict.keys])

theorem processLoop_ok_keys (dfs : List (String × Json))
    (pairs : List (Nat × String)) (d m : PyDict (List PullRequest))
    (hm : processLoop dfs pairs d = .ok m)
    (hmem : ∀ p ∈ pairs, p.2 ∈ d.keys) : m.keys = d.keys := by
  induction pairs generalizing d with
  | nil =>
      simp only [processLoop] at hm
      cases hm
      rfl
  | cons p rest ih =>
      obtain ⟨j, u⟩ := p
      simp only [processLoop] at hm
      cases hpu : processUserAlias dfs j with
      | error e => rw [hpu] at hm; cases hm
      | ok o =>
          rw [hpu] at hm
          cases o with
          | none =>
              exact ih d hm (fun q hq => hmem q (List.mem_cons_of_mem _ hq))
          | some prs =>
              have hku : u ∈ d.keys := hmem (j, u) (List.mem_cons_self _ _)
              have hkeys : (d.insert u prs).keys = d.keys :=
                PyDict.keys_insert_of_mem d prs hku
              have := ih (d.insert u prs) hm
                (fun q hq => by
                  rw [hkeys]
                  exact hmem q (List.mem_cons_of_mem _ hq))
              rw [this, hkeys]

theorem processLoop_ok_lookup_unchanged (dfs : List (String × Json))
    (pairs : List (Nat × String)) (d m : PyDict (List PullRequest)) (u : String)
    (hm : processLoop dfs pairs d = .ok m)
    (hnone : ∀ p ∈ pairs, p.2 = u → processUserAlias dfs p.1 = .ok none) :
    m.lookup u = d.lookup u := by
  induction pairs generalizing d with
  | nil =>
      simp only [processLoop] at hm
      cases hm
      rfl
  | cons p rest ih =>
      obtain ⟨j, u'⟩ := p
      simp only [processLoop] at hm
      cases hpu : processUserAlias dfs j with
      | error e => rw [hpu] at hm; cases hm
      | ok o =>
          rw [hpu] at hm
          cases o with
          | none =>
              exact ih d hm (fun q hq hu => hnone q (List.mem_cons_of_mem _ hq) hu)
          | some prs =>
              have hne : u' ≠ u := by
                intro hu
                have := hnone (j, u') (List.mem_cons_self _ _) hu
                rw [hpu] at this
                cases this
              have := ih (d.insert u' prs) hm
                (fun q hq hu => hnone q (List.mem_cons_of_mem _ hq) hu)
              rw [this, PyDict.lookup_insert_ne _ _ (fun hh => hne hh.symm)]

theorem processUserAlias_of_missing (dfs : List (String × Json)) (j : Nat)
    (h : aliasDataMissing dfs j = true) : processUserAlias dfs j = .ok none := by
  unfold aliasDataMissing at h
  unfold processUserAlias
  cases hg : getField dfs ("user_" ++ toString j) with
  | none => rfl
  | some ud =>
      rw [hg] at h
      simp only at h ⊢
      cases htr : ud.truthy with
      | false => simp [htr]
      | true =>
          rw [htr] at h
          simp only [Bool.not_true, Bool.false_or] at h
          cases ud with
          | obj ufs =>
              simp only at h
              simp only [htr, Bool.not_true, Bool.if_false_left]
              cases hn : getField ufs "nodes" with
              | none => simp
              | some nj => rw [hn] at h; simp at h
          | null => simp at h
          | bool b => simp at h
          | num n => simp at h
          | str s => simp at h
          | arr xs => simp at h

theorem enum_snd_mem_keys (batch : List String) :
    ∀ p ∈ batch.enum, p.2 ∈ (initDict batch).keys := by
  intro p hp
  rw [initDict_mem_keys]
  have := List.mem_enum_iff_getElem?.mp hp
  exact List.getElem?_mem this

theorem process_user_batch_ok_spec (batch : List String) (resp : Json) (m : PyDict (List PullRequest))
    (dfs : List (String × Json)) (j : Nat)
    (hm : _process_user_batch batch resp = .ok m) :
    (m.keys.Nodup ∧ ∀ u, u ∈ m.keys ↔ u ∈ batch)
    ∧ (resp.get "data" = some (.obj dfs) → batch.Nodup →
        ∀ hj : j < batch.length, aliasDataMissing dfs j = true →
          m.lookup (batch.get ⟨j, hj⟩) = some []) := by
  unfold _process_user_batch at hm
  cases resp with
  | null => simp at hm
  | bool b => cases b <;> simp [Json.truthy] at hm
  | num n => by_cases hn : n = 0 <;> simp [Json.truthy, hn] at hm
  | str s => by_cases hs : s = "" <;> simp [Json.truthy, hs] at hm
  | arr xs => by_cases hx : xs.isEmpty <;> simp [Json.truthy, hx] at hm
  | obj rs =>
      by_cases htr : (Json.obj rs).truthy
      case neg => simp [htr] at hm
      case pos =>
          simp only [htr, Bool.not_true, Bool.false_eq_true, if_false] at hm
          cases hd : getField rs "data" with
          | none => rw [hd] at hm; simp at hm
          | some dataJson =>
              rw [hd] at hm
              simp only at hm
              cases dataJson
              case obj dfs2 =>
                simp only at hm
                have hkeys := processLoop_ok_keys dfs2 batch.enum (initDict batch) m hm
                  (enum_snd_mem_keys batch)
                refine ⟨⟨?_, ?_⟩, ?_⟩
                · rw [hkeys]; exact initDict_nodup batch
                · intro u; rw [hkeys]; exact initDict_mem_keys batch u
                · intro hdata hnodup hj hmiss
                  have hdd : getField rs "data" = some (Json.obj dfs) := hdata
                  rw [hd] at hdd
                  obtain rfl : dfs2 = dfs := by
                    injection hdd with h1
                    injection h1
                  have hgetj : batch[j]? = some (batch.get ⟨j, hj⟩) := by
                    rw [List.getElem?_eq_getElem hj]
                    rfl
                  have hlook := processLoop_ok_lookup_unchanged dfs2 batch.enum
                    (initDict batch) m (batch.get ⟨j, hj⟩) hm ?_
                  · rw [hlook, initDict_lookup, if_pos (batch.get_mem j hj)]
                  · intro p hp hpu
                    obtain ⟨jx, ux⟩ := p
                    have hpu2 : ux = batch.get ⟨j, hj⟩ := hpu
                    have hget2 : batch[jx]? = some ux := List.mk_mem_enum_iff_getElem?.mp hp
                    have hjx : jx < batch.length := by
                      by_contra hge
                      rw [List.getElem?_eq_none (Nat.le_of_not_lt hge)] at hget2
                      cases hget2
                    have hjeq : jx = j := List.getElem?_inj hjx hnodup
                      (by rw [hget2, hgetj, hpu2])
                    show processUserAlias dfs2 jx = .ok none
                    rw [hjeq]
                    exact processUserAlias_of_missing dfs2 j hmiss
              all_goals
                (simp only at hm
                 by_cases hb : batch.isEmpty
                 · obtain rfl : batch = [] := List.isEmpty_iff.mp hb
                   simp only [List.isEmpty_nil, if_true, Except.ok.injEq] at hm
                   obtain rfl : m = initDict [] := hm.symm
                   refine ⟨⟨by simp [initDict, PyDict.keys], by simp [initDict, PyDict.keys]⟩, ?_⟩
                   intro _ _ hj _
                   exact absurd hj (by simp)
                 · simp [hb] at hm)

theorem chunkIter_length_le {α : Type} (n k : Nat) (l : List α) :
    ∀ b ∈ chunkIter n k l, b.length ≤ n := by
  induction k generalizing l with
  | zero => intro b hb; simp [chunkIter] at hb
  | succ k ih =>
      intro b hb
      simp only [chunkIter, List.mem_cons] at hb
      rcases hb with rfl | hb
      · simp [List.length_take]
      · exact ih (l.drop n) b hb

theorem chunkIter_flatten {α : Type} (n k : Nat) (l : List α)
    (hlen : l.length ≤ k * n) : (chunkIter n k l).flatten = l := by
  induction k generalizing l with
  | zero =>
      have : l = [] := List.eq_nil_of_length_eq_zero (by omega)
      simp [this, chunkIter]
  | succ k ih =>
      simp only [chunkIter, List.flatten_cons]
      rw [Nat.succ_mul] at hlen
      rw [ih (l.drop n) (by simp only [List.length_drop]; omega)]
      exact List.take_append_drop n l

theorem chunkList_flatten {α : Type} (n : Nat) (l : List α) (hn : 0 < n) :
    (chunkList n l).flatten = l := by
  rw [chunkList]
  apply chunkIter_flatten n _ l
  have h1 : l.length + n - 1 < (l.length + n - 1) / n * n + n :=
    Nat.lt_div_mul_add hn
  generalize hA : (l.length + n - 1) / n * n = A at *
  omega

theorem mem_keys_update {α : Type} (d other : PyDict α) (u : String) :
    u ∈ (d.update other).keys ↔ u ∈ d.keys ∨ u ∈ other.keys := by
  induction other generalizing d with
  | nil => simp [PyDict.update, PyDict.keys]
  | cons p rest ih =>
      obtain ⟨a, b⟩ := p
      show u ∈ (PyDict.update (d.insert a b) rest).keys ↔ _
      rw [ih, PyDict.mem_keys_insert, PyDict.keys_cons, List.mem_cons]
      tauto


theorem gucLoop_ok_keys (net : List String → Json)
    (chunks : List (List String)) (acc m : PyDict (List PullRequest))
    (s s' : Nat) (hrun : gucLoop net chunks acc s = (.ok m, s'))
    (u : String) (hu : u ∈ acc.keys ∨ u ∈ chunks.flatten) : u ∈ m.keys := by
  induction chunks generalizing acc s with
  | nil =>
      simp only [gucLoop, Prod.mk.injEq, Except.ok.injEq] at hrun
      rw [← hrun.1]
      simpa using hu
  | cons b rest ih =>
      simp only [gucLoop] at hrun
      cases hpb : _process_user_batch b (net b) with
      | error e => rw [hpb] at hrun; simp at hrun
      | ok br =>
          rw [hpb] at hrun
          simp only at hrun
          apply ih (acc.update br) (s + 1) hrun
          rcases hu with hu | hu
          · exact Or.inl ((mem_keys_update acc br u).mpr (Or.inl hu))
          · simp only [List.flatten_cons, List.mem_append] at hu
            rcases hu with hu | hu
            · refine Or.inl ((mem_keys_update acc br u).mpr (Or.inr ?_))
              exact ((process_user_batch_ok_spec b (net b) br [] 0 hpb).1.2 u).mpr hu
            · exact Or.inr hu

/-- C4: the batch partition of the usernames is the successive slices of
size at most `BATCH_SIZE = 25`, in order (their concatenation is the
input); an input of 30 usernames yields exactly the two batches of sizes
25 and 5; and on any successful run every input username appears as a key
of the final merged mapping. -/
theorem claim_C4 (usernames : List String) (net : List String → Json)
    (m : PyDict (List PullRequest)) (s : Nat) :
    BATCH_SIZE = 25
    ∧ (∀ b ∈ chunkList BATCH_SIZE usernames, b.length ≤ 25)
    ∧ (chunkList BATCH_SIZE usernames).flatten = usernames
    ∧ (usernames.length = 30 →
        (chunkList BATCH_SIZE usernames).map List.length = [25, 5])
    ∧ (get_users_contributed_repos_and_prs net usernames = (.ok m, s) →
        ∀ u ∈ usernames, u ∈ m.keys) := by
  have hflat : (chunkList BATCH_SIZE usernames).flatten = usernames :=
    chunkList_flatten BATCH_SIZE usernames (by norm_num [BATCH_SIZE])
  refine ⟨rfl, fun b hb => chunkIter_length_le BATCH_SIZE _ usernames b hb,
    hflat, ?_, ?_⟩
  · intro h30
    have hk : (usernames.length + BATCH_SIZE - 1) / BATCH_SIZE = 2 := by
      rw [h30, BATCH_SIZE]
    rw [chunkList, hk]
    simp [chunkIter, List.length_take, List.length_drop, h30, BATCH_SIZE]
  · intro hrun u hu
    exact gucLoop_ok_keys net _ [] m 0 s hrun u (Or.inr (by rw [hflat]; exact hu))

/-- Witness for C4 at 30 concrete usernames: the two batches have sizes 25
and 5 and a username from the second batch appears in the merged mapping. -/
theorem claim_C4_witness :
    ((chunkList BATCH_SIZE users30).map List.length = [25, 5])
    ∧ "27" ∈ m30.keys := by
  have h := claim_C4 users30 emptyNet m30 2
  exact ⟨h.2.2.2.1 (by decide), h.2.2.2.2 (by decide) "27" (by decide)⟩

/-- C10: whenever `_process_user_batch` succeeds, the returned mapping has
exactly one entry per username of the batch (its key set is exactly the
batch's usernames, without duplicates); and with the batch's usernames
distinct, a username whose `user_j` alias data is missing, falsy or
lacking a `nodes` field maps to the empty list rather than being absent
or raising. -/
theorem claim_C10 (batch : List String) (resp : Json) (m : PyDict (List PullRequest))
    (dfs : List (String × Json)) (j : Nat)
    (hm : _process_user_batch batch resp = .ok m) :
    (m.keys.Nodup ∧ ∀ u, u ∈ m.keys ↔ u ∈ batch)
    ∧ (resp.get "data" = some (.obj dfs) → batch.Nodup →
        ∀ hj : j < batch.length, aliasDataMissing dfs j = true →
          m.lookup (batch.get ⟨j, hj⟩) = some []) :=
  process_user_batch_ok_spec batch resp m dfs j hm

/-- Witness for C10: in a two-user batch where only `user_0` has data,
`"bob"` still appears as a key, the keys are exactly the batch, and
`"bob"` maps to the empty list. -/
theorem claim_C10_witness :
    ("bob" ∈ c10result.keys ∧ c10result.keys.Nodup)
    ∧ c10result.lookup "bob" = some [] := by
  have h := claim_C10 ["alice", "bob"] c10resp c10result c10data 1 (by decide)
  refine ⟨⟨(h.1.2 "bob").mpr (by decide), h.1.1⟩, ?_⟩
  exact h.2 rfl (by decide) (by decide) (by decide)

theorem getField_ne_nil {fs : List (String × Json)} {k : String} {v : Json}
    (h : getField fs k = some v) : fs ≠ [] := by
  intro hfs
  subst hfs
  simp [getField] at h

theorem countReviewNodes_wf (xs : List Json)
    (h : ∀ n ∈ xs, reviewNodeWF n = true) :
    countReviewNodes xs = .ok (specReviewCount xs) := by
  induction xs with
  | nil => rfl
  | cons n rest ih =>
      have hn := h n (List.mem_cons_self _ _)
      have hrest := ih (fun q hq => h q (List.mem_cons_of_mem _ hq))
      cases n with
      | null =>
          simp [countReviewNodes, Except.instMonad, Except.bind, Except.pure, reviewNodeOk, Json.truthy, hrest,
            specReviewCount, List.countP_cons, Json.isNull]
      | obj fs =>
          cases ha : getField fs "author" with
          | none =>
              by_cases hfe : fs.isEmpty
              · simp [countReviewNodes, Except.instMonad, Except.bind, Except.pure, reviewNodeOk, Json.truthy, hfe, hrest,
                  specReviewCount, List.countP_cons, Json.isNull, Json.get, ha]
              · simp [countReviewNodes, Except.instMonad, Except.bind, Except.pure, reviewNodeOk, Json.truthy, hfe, hrest,
                  specReviewCount, List.countP_cons, Json.isNull, Json.get, ha]
          | some av =>
              have hfs : fs ≠ [] := getField_ne_nil ha
              have hfe : fs.isEmpty = false := by
                cases fs with
                | nil => exact absurd rfl hfs
                | cons q qs => rfl
              simp only [reviewNodeWF, ha] at hn
              cases av with
              | null =>
                  simp [countReviewNodes, Except.instMonad, Except.bind, Except.pure, reviewNodeOk, Json.truthy, hfe, hrest,
                    specReviewCount, List.countP_cons, Json.isNull, Json.get, ha]
              | obj afs =>
                  simp only at hn
                  have hafs : afs.isEmpty = false := by
                    cases hq : afs.isEmpty
                    · rfl
                    · rw [hq] at hn; simp at hn
                  simp [countReviewNodes, Except.instMonad, Except.bind, Except.pure, reviewNodeOk, Json.truthy, hfe, hafs,
                    hrest, specReviewCount, List.countP_cons, Json.isNull,
                    Json.get, ha]
              | bool b => simp only at hn; exact absurd hn (by simp)
              | num m => simp only at hn; exact absurd hn (by simp)
              | str s => simp only at hn; exact absurd hn (by simp)
              | arr ys => simp only at hn; exact absurd hn (by simp)
      | bool b => simp [reviewNodeWF] at hn
      | num m => simp [reviewNodeWF] at hn
      | str s => simp [reviewNodeWF] at hn
      | arr ys => simp [reviewNodeWF] at hn

theorem userPRNode_reviews (rg : Int) (x : Json) (pr : PullRequest)
    (h : userPRNode rg x = some pr) : pr.reviews_given = rg := by
  unfold userPRNode at h
  by_cases ht : x.truthy
  · rw [ht] at h
    simp only [Bool.not_true, Bool.false_eq_true, if_false] at h
    cases x with
    | obj fs =>
        simp only [Option.some.injEq] at h
        rw [← h]
    | null => cases h
    | bool b => cases h
    | num n => cases h
    | str s => cases h
    | arr ys => cases h
  · rw [Bool.not_eq_true] at ht
    rw [ht] at h
    simp at h

theorem processUserAlias_ok_some (dfs : List (String × Json)) (j : Nat)
    (prs : List PullRequest)
    (h : processUserAlias dfs j = .ok (some prs)) :
    ∃ n : Nat, aliasReviewsGiven dfs j = .ok n
      ∧ ∀ pr ∈ prs, pr.reviews_given = (n : Int) := by
  unfold processUserAlias at h
  cases hg : getField dfs ("user_" ++ toString j) with
  | none => rw [hg] at h; simp at h
  | some ud =>
      rw [hg] at h
      simp only at h
      by_cases htr : ud.truthy
      case neg =>
          rw [Bool.not_eq_true] at htr
          rw [htr] at h
          simp at h
      case pos =>
          rw [htr] at h
          simp only [Bool.not_true, Bool.false_eq_true, if_false] at h
          cases ud with
          | obj ufs =>
              simp only at h
              cases hn : getField ufs "nodes" with
              | none => rw [hn] at h; simp at h
              | some nodesJson =>
                  rw [hn] at h
                  simp only at h
                  cases hrg : aliasReviewsGiven dfs j with
                  | error e =>
                      rw [hrg] at h
                      simp [Except.instMonad, Except.bind] at h
                  | ok n =>
                      rw [hrg] at h
                      refine ⟨n, rfl, ?_⟩
                      simp only [Except.instMonad, Except.bind] at h
                      cases nodesJson with
                      | arr xs =>
                          simp only [Except.ok.injEq, Option.some.injEq] at h
                          subst h
                          intro pr hpr
                          obtain ⟨x, hx, hxe⟩ := List.mem_filterMap.mp hpr
                          exact userPRNode_reviews _ x pr hxe
                      | str s =>
                          simp only [Except.ok.injEq, Option.some.injEq] at h
                          subst h
                          intro pr hpr
                          cases hpr
                      | obj os =>
                          simp only [Except.ok.injEq, Option.some.injEq] at h
                          subst h
                          intro pr hpr
                          cases hpr
                      | null => simp at h
                      | bool b => simp at h
                      | num m => simp at h
          | null => simp at h
          | bool b => simp at h
          | num n2 => simp at h
          | str s => simp at h
          | arr ys => simp at h

/-- C3: under the GraphQL response shapes (`reviewNodeWF`), the computed
reviews count equals exactly the number of non-null nodes with a non-null
author; every `PullRequest` produced from a user's node list carries that
single `reviews_given` value; and aggregation exposes the value read off
the first PR (not a sum or average), with `0` for a user with no PRs. -/
theorem claim_C3 (xs ys : List Json) (rg : Int) (dfs : List (String × Json))
    (j : Nat) (prs : List PullRequest) (x : PullRequest)
    (rest : List PullRequest)
    (hwf : ∀ n ∈ xs, reviewNodeWF n = true) :
    countReviewNodes xs = .ok (specReviewCount xs)
    ∧ (∀ pr ∈ ys.filterMap (userPRNode rg), pr.reviews_given = rg)
    ∧ (processUserAlias dfs j = .ok (some prs) →
        ∃ n : Nat, aliasReviewsGiven dfs j = .ok n
          ∧ ∀ pr ∈ prs, pr.reviews_given = (n : Int))
    ∧ (_calculate_metrics (x :: rest)).reviews_given = x.reviews_given
    ∧ (_calculate_metrics []).reviews_given = 0 := by
  refine ⟨countReviewNodes_wf xs hwf, ?_, processUserAlias_ok_some dfs j prs,
    ?_, rfl⟩
  · intro pr hpr
    obtain ⟨y, hy, hye⟩ := List.mem_filterMap.mp hpr
    exact userPRNode_reviews rg y pr hye
  · simp [_calculate_metrics]

/-- Witness for C3: on a reviews list with a null node, an authored node
and a null-authored node, exactly the authored node is counted; and the
aggregator reads the (uniform) `reviews_given` value off the first PR. -/
theorem claim_C3_witness :
    countReviewNodes revXs = .ok 1
    ∧ specReviewCount revXs = 1
    ∧ (_calculate_metrics [prW, prW2]).reviews_given = 4 := by
  have h := claim_C3 revXs [] 0 [] 0 [] prW [prW2] (by decide)
  exact ⟨h.1.trans (by decide), by decide, h.2.2.2.1⟩

/-! ## Malformed PR nodes (C7) -/

/-- C7 (counterexample): on a batch response whose `user_0` alias holds
one well-formed node and one node missing required fields, the claimed
one-element PR list is wrong: the malformed node is not skipped — the
code builds a `PullRequest` with `None`/default field values — so the
list has two elements. -/
theorem claim_C7_counterexample :
    _process_user_batch ["alice"] cexResp = .ok [("alice", [pr_wf, pr_bad])]
    ∧ (((_process_user_batch ["alice"] cexResp).toOption.bind
          (fun d => (d.lookup "alice").map List.length)) = some 2)
    ∧ ¬(((_process_user_batch ["alice"] cexResp).toOption.bind
          (fun d => (d.lookup "alice").map List.length)) = some 1) :=
  ⟨by decide, by decide, by decide⟩

/-- C7 as amended: a dict node missing required fields is not skipped;
`dict.get` substitutes `None` (for `number`/`createdAt`/`mergedAt`) and
the defaults `0`/`'unknown'` (for `additions`/`deletions`/`state`), so a
well-formed node plus a field-missing node yield a two-element PR list
and the batch still succeeds (a malformed node never aborts it).  Only
falsy nodes are skipped (silently, by `if not node: continue`), and
truthy non-dict nodes are skipped with a logged warning. -/
theorem claim_C7 (u : String) (fs1 fs2 : List (String × Json))
    (h1 : fs1 ≠ []) (h2 : fs2 ≠ []) :
    _process_user_batch [u] (mkSingleUserResp [.obj fs1, .obj fs2])
      = .ok [(u, List.filterMap (userPRNode 0) [.obj fs1, .obj fs2])]
    ∧ (List.filterMap (userPRNode 0) [.obj fs1, .obj fs2]).length = 2
    ∧ userPRNode 0 .null = none
    ∧ (∀ s : String, s ≠ "" → userPRNode 0 (.str s) = none) := by
  obtain ⟨q1, qs1, rfl⟩ := List.exists_cons_of_ne_nil h1
  obtain ⟨q2, qs2, rfl⟩ := List.exists_cons_of_ne_nil h2
  refine ⟨?_, ?_, rfl, ?_⟩
  · have e1 : "user_" ++ toString 0 = "user_0" := by decide
    have e2 : "reviews_" ++ toString 0 = "reviews_0" := by decide
    simp only [mkSingleUserResp, _process_user_batch, Json.truthy, processLoop,
      processUserAlias, aliasReviewsGiven, List.enum, List.enumFrom, e1, e2]
    simp [getField, reviewsGivenOf, initDict, userPRNode, PyDict.insert,
      Except.instMonad, Except.bind, Except.pure, Json.truthy]
  · simp [userPRNode, Json.truthy]
  · intro s hs
    simp [userPRNode, Json.truthy, hs]


/-- Witness for C7's amended claim at the concrete malformed response. -/
theorem claim_C7_witness :
    _process_user_batch ["alice"] (mkSingleUserResp [wfNode, badNode])
      = .ok [("alice", [pr_wf, pr_bad])]
    ∧ (List.filterMap (userPRNode 0) [wfNode, badNode]).length = 2 := by
  have h := claim_C7 "alice" wfFields badFields (by simp [wfFields])
    (by simp [badFields])
  refine ⟨?_, h.2.1⟩
  show _process_user_batch ["alice"]
    (mkSingleUserResp [Json.obj wfFields, Json.obj badFields]) = _
  rw [h.1]
  decide

/-! ## The inter-batch sleep (C9) -/

/-- C9 (evaluation at the failing input): `time.sleep(1)` at `client.py`
line 83 sits unconditionally inside the batch loop, so it also runs after
the last batch.  A single-username input forms exactly one batch yet
observes 1 executed sleep, where the claim requires none; a 30-username
input forms two batches and observes 2 sleeps rather than the claimed 1
inter-batch sleep. -/
theorem claim_C9_sleep_after_last_batch :
    chunkList BATCH_SIZE ["alice"] = [["alice"]]
    ∧ (get_users_contributed_repos_and_prs emptyNet ["alice"]).2 = 1
    ∧ (chunkList BATCH_SIZE users30).length = 2
    ∧ (get_users_contributed_repos_and_prs emptyNet users30).2 = 2 :=
  ⟨by decide, by decide, by decide, by decide⟩

end GithubMetrics
